import Mathlib

/-!
Verification of the NeuroBehavior spike-extraction pipeline.

Shallow embedding of `nb_import_spikes` (the MATLAB helper that loads spike
waveforms from an HDF5 file and cleans them up; two revisions of the function
appear in the repository and together they provide the detection-channel,
censor, artifact-reject, trial-range, max-count and refractory stages) and of
the batch-job driver `process_batchfile.py`.

Modelling conventions:
* MATLAB doubles are modelled as `ℚ`; the integer-valued sample-index arrays
  (`timestamps_n`, `channels`, `channel_indices`) are modelled as `ℤ`.
* MATLAB arrays are Lean lists.  A per-event waveform is channel-major:
  `Waveform = List (List ℚ)`, the outer list indexed by the loaded channel
  (column of `extract_indices`), the inner by sample.  The source stores
  `[event, sample, channel]`; the axis order is a representation choice and
  the max-over-samples / argmax-over-channels operations below follow the
  source's `max(waveforms,[],2)` / `max(a,[],3)`.
* MATLAB 1-based column positions returned by `find` are modelled as 0-based
  list positions.
* MATLAB logical indexing `xs(mask)` is `applyMask`; `xs(idx) = []` deletion
  is `applyMask` with the complement membership mask over positions.
-/

namespace Neurobehavior

/-- MATLAB `round`: round half away from zero.  For `q < 0`,
`-⌊1/2 - q⌋ = ⌈q - 1/2⌉`, written floor-only. -/
def matround (q : ℚ) : ℤ :=
  if 0 ≤ q then ⌊q + 1/2⌋ else -⌊1/2 - q⌋

/-- Conversion of a spike-window bound from milliseconds to samples:
`round(spike_window * 1e-3 * waveform_fs)` (line 214 of the first revision). -/
def msToSamples (ms fs : ℚ) : ℤ :=
  matround (ms * (1/1000) * fs)

/-- A thrown MATLAB exception: identifier and message, as built by
`MException(identifier, message)`. -/
structure MException where
  identifier : String
  message : String
deriving DecidableEq

/-- The single exception object both failure branches of `get_indices`
throw (lines 419-421 / 798-800). -/
def invalidChannelError : MException :=
  ⟨"Neurobehavior:InvalidChannel", "Channel not available for extraction"⟩

/-- Positions (0-based) of all occurrences of `c` in `available`, the model of
MATLAB `find(available_channels == channels(i))` with the running offset `k`. -/
def findAllFrom (available : List ℤ) (c : ℤ) (k : ℕ) : List ℕ :=
  match available with
  | [] => []
  | a :: rest =>
    if a = c then k :: findAllFrom rest c (k + 1) else findAllFrom rest c (k + 1)

/-- All positions of `c` in `available` (MATLAB `find`). -/
def findAll (available : List ℤ) (c : ℤ) : List ℕ :=
  findAllFrom available c 0

/-- `get_indices(channels, available_channels)` (lines 412-425 / 791-804):
map each requested channel number to its column position in
`available_channels`; if `find` does not return exactly one position
(channel absent, or present more than once) throw
`Neurobehavior:InvalidChannel`. -/
def get_indices (channels available : List ℤ) : Except MException (List ℕ) :=
  match channels with
  | [] => .ok []
  | c :: cs =>
    match findAll available c with
    | [i] =>
      match get_indices cs available with
      | .ok rest => .ok (i :: rest)
      | .error e => .error e
    | _ => .error invalidChannelError

/-- The two bounds-validation failures of the spike-window computation
(lines 227-235): `Neurobehavior:InvalidWindow` with the lower-bound
respectively upper-bound message. -/
inductive WindowError where
  | lowerExceeds
  | upperExceeds
deriving DecidableEq

/-- The computed spike-window geometry (lines 216-243): all sample fields of
the requested-window branch, plus the reported `window_size` and `cross_time`
(msec). -/
structure WindowSpec where
  window_lb : ℤ
  window_ub : ℤ
  window_samples : ℤ
  align_sample : ℤ
  window_size : ℚ
  cross_time : ℚ
deriving DecidableEq

/-- The requested-window branch of `nb_import_spikes` (lines 205-243):
convert the window (ms, relative to the threshold crossing) to samples, add
`samples_before`, 1-base the lower bound and the alignment sample, validate
against the stored window, and compute the reported geometry. -/
def computeSpikeWindow (lo hi fs : ℚ) (samples_before window_samples : ℤ) :
    Except WindowError WindowSpec :=
  let wlb0 := msToSamples lo fs + samples_before
  let wub := msToSamples hi fs + samples_before
  let align := samples_before - wlb0 + 1
  let wlb := wlb0 + 1
  if wlb < 1 then .error .lowerExceeds
  else if wub > window_samples then .error .upperExceeds
  else
    let ws := wub - wlb + 1
    .ok ⟨wlb, wub, ws, align, (ws : ℚ) / fs * 1000,
         ((samples_before - wlb + 1 : ℤ) : ℚ) / fs * 1000⟩

/-- A per-event waveform, channel-major: one sample list per loaded channel. -/
abbrev Waveform := List (List ℚ)

/-- The parallel per-event arrays threaded through the pipeline. -/
structure Batch where
  waveforms : List Waveform
  timestamps : List ℤ
  channels : List ℤ
  channel_indices : List ℤ
  source_indices : List ℕ
deriving DecidableEq

/-- All five parallel sequences have the length of `timestamps`. -/
abbrev Aligned (b : Batch) : Prop :=
  b.waveforms.length = b.timestamps.length ∧
  b.channels.length = b.timestamps.length ∧
  b.channel_indices.length = b.timestamps.length ∧
  b.source_indices.length = b.timestamps.length

/-- MATLAB logical indexing `xs(mask)`: keep the elements whose mask entry is
true (mask and array are consumed in lock-step). -/
def applyMask : List Bool → List α → List α
  | [], _ => []
  | _ :: _, [] => []
  | true :: m, x :: xs => x :: applyMask m xs
  | false :: m, _ :: xs => applyMask m xs

/-- `xs(mask)` applied to every parallel array of the batch. -/
def applyMaskB (m : List Bool) (b : Batch) : Batch :=
  ⟨applyMask m b.waveforms, applyMask m b.timestamps, applyMask m b.channels,
   applyMask m b.channel_indices, applyMask m b.source_indices⟩

/-- `xs(1:n)` applied to every parallel array of the batch. -/
def takeB (n : ℕ) (b : Batch) : Batch :=
  ⟨b.waveforms.take n, b.timestamps.take n, b.channels.take n,
   b.channel_indices.take n, b.source_indices.take n⟩

/-- The batch as a single list of per-event tuples
(timestamp, channel, channel index, source index, waveform): index `i` of
every parallel array contributes to tuple `i`. -/
def Batch.events (b : Batch) : List (ℤ × ℤ × ℤ × ℕ × Waveform) :=
  b.timestamps.zip (b.channels.zip (b.channel_indices.zip
    (b.source_indices.zip b.waveforms)))

/-- The per-event tuples without the channel field (the refractory stage
recomputes `channels` from the waveforms, so the channel value of a surviving
event is not a copy of its old value). -/
def Batch.eventsNC (b : Batch) : List (ℤ × ℤ × ℕ × Waveform) :=
  b.timestamps.zip (b.channel_indices.zip (b.source_indices.zip b.waveforms))

/-- The detection mask (lines 281-284): event kept iff its recorded detection
channel equals some member of `detect_channels` (the loop ORs
`channels == ch` over the requested channels). -/
def detectMask (detect_channels channels : List ℤ) : List Bool :=
  channels.map (fun c => detect_channels.any (fun ch => decide (c = ch)))

/-- Stage 1, detection-channel filter (lines 280-295): with a non-empty
`detect_channels` winnow all five arrays by `detectMask`; with an empty one
keep everything and use an all-ones mask (`detect_mask = ones(size(timestamps))`).
Returns the narrowed batch and the mask, which later stages reuse to align
store-length arrays. -/
def detectStage (detect_channels : List ℤ) (b : Batch) : Batch × List Bool :=
  if detect_channels.isEmpty then
    (b, List.replicate b.timestamps.length true)
  else
    (applyMaskB (detectMask detect_channels b.channels) b,
     detectMask detect_channels b.channels)

/-- Stage 2, censor filter (lines 297-307): when `exclude_censored`, align the
store-length `censored` flags to the current ordering with the detection mask
(`censored = censored(detect_mask)`), then drop the flagged events
(`waveforms(~censored, ...)` etc.).  Returns the narrowed batch and the keep
mask (all ones when the stage is skipped). -/
def censorStage (exclude_censored : Bool) (censored : List Bool)
    (detect_mask : List Bool) (b : Batch) : Batch × List Bool :=
  if exclude_censored then
    let c := applyMask detect_mask censored
    let keep := c.map (fun x => !x)
    (applyMaskB keep b, keep)
  else
    (b, List.replicate b.timestamps.length true)

/-- The `artifact_reject` argument (second revision, lines 548-551, 664-671):
empty (no rejection), the strings `all` / `detect` / `waveform`, or an explicit
channel vector. -/
inductive ArtifactReject where
  | noReject
  | rejectAll
  | rejectDetect
  | rejectWaveform
  | rejectList (chs : List ℤ)
deriving DecidableEq

/-- Resolution of the artifact-reject mode to a concrete channel set
(lines 665-671); `none` when the stage is skipped.  `dc` and `wc` are the
already-defaulted detect/waveform channel sets. -/
def resolveArtifactChannels (mode : ArtifactReject) (dc wc ec : List ℤ) :
    Option (List ℤ) :=
  match mode with
  | .noReject => none
  | .rejectAll => some ec
  | .rejectDetect => some dc
  | .rejectWaveform => some wc
  | .rejectList chs => some chs

/-- Stage 3, artifact-reject filter (lines 664-692): align the store-length
artifact matrix rows to the current event ordering (the second revision has no
censor stage, so it uses `artifacts(detect_mask, indices)`; in the merged
pipeline the censor keep-mask is applied as well, and it is all ones whenever
the censor stage was skipped), select the columns of the resolved channel set,
and drop every event whose selected row has any true flag
(`~any(artifacts, 2)`).  `aidx` is the `get_indices` resolution of the
artifact channel set. -/
def artifactStage (mode : ArtifactReject) (aidx : List ℕ)
    (artifacts : List (List Bool)) (detect_mask censor_keep : List Bool)
    (b : Batch) : Batch :=
  match mode with
  | .noReject => b
  | _ =>
    let rows := applyMask censor_keep (applyMask detect_mask artifacts)
    let keep := rows.map (fun row => !(aidx.any (fun j => row.getD j false)))
    applyMaskB keep b

/-- The `trial_range_mode` argument of the second revision (lines 479-489):
per-trial windows or one block spanning first trial start to last trial end. -/
inductive TrialMode where
  | individual
  | block
deriving DecidableEq

/-- Individual-mode keep test (lines 720-725): the event time lies in
`[epoch_start + lb, epoch_end + ub)` for some trial epoch. -/
def trialKeepIndividual (epochs : List (ℤ × ℤ)) (lb ub t : ℤ) : Bool :=
  epochs.any (fun e => decide (e.1 + lb ≤ t) && decide (t < e.2 + ub))

/-- Block-mode keep test (lines 727-729): the event time lies in
`[first_start + lb, last_end + ub)`. -/
def trialKeepBlock (epochs : List (ℤ × ℤ)) (lb ub t : ℤ) : Bool :=
  decide ((epochs.headD (0, 0)).1 + lb ≤ t) &&
    decide (t < (epochs.getLastD (0, 0)).2 + ub)

/-- The per-mode keep test. -/
def trialKeep (mode : TrialMode) (epochs : List (ℤ × ℤ)) (lb ub t : ℤ) : Bool :=
  match mode with
  | .individual => trialKeepIndividual epochs lb ub t
  | .block => trialKeepBlock epochs lb ub t

/-- Trial epochs in timestamp sample units (lines 697-703):
`round([trial_log.start, trial_log.xEnd] * timestamps_fs)`. -/
def epochsOf (trial_log : List (ℚ × ℚ)) (fs : ℚ) : List (ℤ × ℤ) :=
  trial_log.map (fun e => (matround (e.1 * fs), matround (e.2 * fs)))

/-- Stage 4, trial-range filter (lines 705-741): skipped when no range is
given; otherwise convert the bounds to samples
(`round(trial_range * timestamps_fs)`), build the per-mode mask over the
current timestamps, and winnow all five arrays. -/
def trialStage (trial_range : Option (ℚ × ℚ)) (mode : TrialMode)
    (epochs : List (ℤ × ℤ)) (fs : ℚ) (b : Batch) : Batch :=
  match trial_range with
  | none => b
  | some r =>
    let lb := matround (r.1 * fs)
    let ub := matround (r.2 * fs)
    applyMaskB (b.timestamps.map (trialKeep mode epochs lb ub)) b

/-- Stage 5, max-count truncation (lines 361-367): when `max_features` is
finite (`some n`) and smaller than the current event count, keep the first `n`
events in their current order. -/
def maxCountStage (max_features : Option ℕ) (b : Batch) : Batch :=
  match max_features with
  | none => b
  | some n => if n < b.timestamps.length then takeB n b else b

/-- Maximum of a sample list (MATLAB `max` of a vector; the source never
applies it to an empty vector, for which the model returns 0). -/
def listMax : List ℚ → ℚ
  | [] => 0
  | [x] => x
  | x :: y :: xs => max x (listMax (y :: xs))

/-- Position of the first occurrence of the maximum (MATLAB
`[~, i] = max(a)` returns the first maximizing index). -/
def argmax : List ℚ → ℕ
  | [] => 0
  | [_] => 0
  | x :: y :: xs => if listMax (y :: xs) ≤ x then 0 else argmax (y :: xs) + 1

/-- Stable ascending insertion of position `j` into an already-sorted position
list (a later equal timestamp goes after an earlier one, as MATLAB `sort`). -/
def insertIdx (ts : List ℤ) (j : ℕ) : List ℕ → List ℕ
  | [] => [j]
  | k :: ks =>
    if ts.getD k 0 ≤ ts.getD j 0 then k :: insertIdx ts j ks else j :: k :: ks

/-- `[sorted, i] = sort(timestamps)` (line 375): the 0-based original
positions in ascending timestamp order, stable. -/
def sortIdx (ts : List ℤ) : List ℕ :=
  (List.range ts.length).foldl (fun acc j => insertIdx ts j acc) []

/-- `violations = find(diff(sorted) <= p) + 1` (lines 376-377): positions in
the sorted order whose timestamp is within `p` of its predecessor. -/
def violPositions (sorted : List ℤ) (p : ℤ) : List ℕ :=
  ((sorted.zip sorted.tail).enum.filter
    (fun pr => decide (pr.2.2 - pr.2.1 ≤ p))).map (fun pr => pr.1 + 1)

/-- The keep mask of MATLAB deletion `xs(kill) = []`: keep position `i` iff it
is not listed in `kill`. -/
def keepMask (n : ℕ) (kill : List ℕ) : List Bool :=
  (List.range n).map (fun i => !(kill.contains i))

/-- The channel the refractory stage assigns to an event (lines 393-398):
`waveform_channels(i)` where `i` is the first channel index of the loaded
waveform maximizing the per-channel maximum over samples
(`a = max(waveforms,[],2); [~,i] = max(a,[],3)`). -/
def reassignChannel (waveform_channels : List ℤ) (w : Waveform) : ℤ :=
  waveform_channels.getD (argmax (w.map listMax)) 0

/-- Stage 6, refractory deduplication (lines 369-399): convert the period to
samples; when non-zero, sort the timestamps tracking original positions, mark
the later event of every pair closer than the period, delete the marked
positions from every parallel array, and overwrite `channels` with the
best-deflection channel of each surviving loaded waveform. -/
def refractoryStage (refractory_period fs : ℚ) (waveform_channels : List ℤ)
    (b : Batch) : Batch :=
  let p := matround (refractory_period * fs)
  if p = 0 then b
  else
    let idx := sortIdx b.timestamps
    let sorted := idx.map (fun i => b.timestamps.getD i 0)
    let iviol := (violPositions sorted p).map (fun k => idx.getD k 0)
    let bKept := applyMaskB (keepMask b.timestamps.length iviol) b
    { bKept with channels := bKept.waveforms.map (reassignChannel waveform_channels) }

/-- Everything one extraction call feeds the six filter stages: the loaded
batch, the already-defaulted channel sets, the store-length auxiliary arrays,
and the stage configuration. -/
structure PipelineInput where
  b0 : Batch
  detect_channels : List ℤ
  waveform_channels : List ℤ
  exclude_censored : Bool
  censored : List Bool
  artifact_mode : ArtifactReject
  artifact_idx : List ℕ
  artifacts : List (List Bool)
  trial_range : Option (ℚ × ℚ)
  trial_mode : TrialMode
  epochs : List (ℤ × ℤ)
  fs : ℚ
  max_features : Option ℕ
  refractory_period : ℚ

/-- Boundary after the detection-channel filter (batch and detection mask). -/
def stage1 (P : PipelineInput) : Batch × List Bool :=
  detectStage P.detect_channels P.b0

/-- Boundary after the censor filter (batch and censor keep-mask). -/
def stage2 (P : PipelineInput) : Batch × List Bool :=
  censorStage P.exclude_censored P.censored (stage1 P).2 (stage1 P).1

/-- Boundary after the artifact-reject filter. -/
def stage3 (P : PipelineInput) : Batch :=
  artifactStage P.artifact_mode P.artifact_idx P.artifacts (stage1 P).2
    (stage2 P).2 (stage2 P).1

/-- Boundary after the trial-range filter. -/
def stage4 (P : PipelineInput) : Batch :=
  trialStage P.trial_range P.trial_mode P.epochs P.fs (stage3 P)

/-- Boundary after the max-count truncation. -/
def stage5 (P : PipelineInput) : Batch :=
  maxCountStage P.max_features (stage4 P)

/-- Boundary after the refractory deduplication. -/
def stage6 (P : PipelineInput) : Batch :=
  refractoryStage P.refractory_period P.fs P.waveform_channels (stage5 P)

/-- The raw event store as the pipeline reads it (attributes and per-event
arrays of `/event_data`, plus the trial log). -/
structure Store where
  extracted_channels : List ℤ
  timestamps : List ℤ
  timestamps_fs : ℚ
  channels : List ℤ
  channel_indices : List ℤ
  waveforms : List Waveform
  artifacts : List (List Bool)
  censored : List Bool
  trial_log : List (ℚ × ℚ)

/-- The channel-by-channel waveform load (lines 263-271): the loaded waveform
of an event is the stored waveform restricted to the `extract_indices`
columns, in request order. -/
def loadWaveform (extract_indices : List ℕ) (w : Waveform) : Waveform :=
  extract_indices.map (fun j => w.getD j [])

/-- The batch as it stands before any filter stage (lines 169-276):
timestamps, channels and channel indices read whole, waveforms loaded
channel-by-channel and scaled by `waveform_gain`, and `source_indices`
assigned as the 1-based position of every event in the untouched store
(`source_indices = 1:length(timestamps)`). -/
def initialBatch (s : Store) (waveform_gain : ℚ) (extract_indices : List ℕ) :
    Batch :=
  { waveforms := s.waveforms.map (fun w =>
      (loadWaveform extract_indices w).map (List.map (fun x => x * waveform_gain)))
    timestamps := s.timestamps
    channels := s.channels
    channel_indices := s.channel_indices
    source_indices := List.range' 1 s.timestamps.length }

/-- The output record assembly (lines 401-409 / 780-788): the parallel arrays
are stored as they stand, `spiketimes` and `unwrapped_times` are the
timestamps divided by `timestamps_fs`, and `trials` is a constant-one
placeholder. -/
structure SpikesOut where
  waveforms : List Waveform
  timestamps : List ℤ
  channels : List ℤ
  channel_indices : List ℤ
  source_indices : List ℕ
  spiketimes : List ℚ
  unwrapped_times : List ℚ
  trials : List ℚ

/-- `spikes.waveforms = waveforms; ...; spikes.spiketimes = timestamps ./
timestamps_fs; spikes.unwrapped_times = spikes.spiketimes;
spikes.trials = ones(1, length(spikes.timestamps))`. -/
def assemble (b : Batch) (timestamps_fs : ℚ) : SpikesOut :=
  { waveforms := b.waveforms
    timestamps := b.timestamps
    channels := b.channels
    channel_indices := b.channel_indices
    source_indices := b.source_indices
    spiketimes := b.timestamps.map (fun t => (t : ℚ) / timestamps_fs)
    unwrapped_times := b.timestamps.map (fun t => (t : ℚ) / timestamps_fs)
    trials := List.replicate b.timestamps.length 1 }

/-! The batch-job driver `process_batchfile.py`.  One queued job is a pickled
`(fn, file_info, kwargs)` tuple; the driver loops over the jobs of one batch
file.  The only `except` clause of the loop body catches `EOFError` (end of
the pickle stream); the catch-all block that would queue a failed job and
continue is commented out in the source (lines 47-54).  The `tables.openFile`
handles are closed by two plain `close()` calls at the end of the `try` body,
with no `finally`/`with` scoping (lines 29-56), and `failed_jobs` is dumped to
`failed_jobs.dat` only by the code after the loop (lines 63-67). -/

/-- A queued job, identified by numeric ids for the operation name and the
input/output files (the pickled metadata is opaque to the control flow). -/
structure Job where
  fn : ℕ
  inputFile : ℕ
  outputFile : ℕ
deriving DecidableEq

/-- Where the processing of one job raises, if anywhere: opening the input
store, opening the output store, or the `getattr(analysis, fn)(**kwargs)`
call itself. -/
inductive JobOutcome where
  | success
  | raiseOnOpenIn
  | raiseOnOpenOut
  | raiseOnRun
deriving DecidableEq

/-- The environment of one driver run: which output targets already exist and
how each job's processing behaves. -/
structure BatchEnv where
  outputExists : Job → Bool
  outcome : Job → JobOutcome

/-- The input store handle of a job (tag 0). -/
def inHandle (j : Job) : ℕ × ℕ := (0, j.inputFile)

/-- The output store handle of a job (tag 1). -/
def outHandle (j : Job) : ℕ × ℕ := (1, j.outputFile)

/-- Result of executing one loop iteration: continue with the next job, or an
exception escapes the loop (only `EOFError` is caught). -/
inductive JobStep where
  | done (failed : List Job) (handles : List (ℕ × ℕ))
  | raised (failed : List Job) (handles : List (ℕ × ℕ))
deriving DecidableEq

/-- One loop iteration (lines 20-56): the output-exists precondition appends
the job to `failed_jobs` and continues without opening anything; otherwise the
input and output handles are acquired in turn, the operation runs, and the two
`close()` calls at the end of the `try` body release the handles — so a raise
at any point propagates with everything acquired so far still open. -/
def processJob (env : BatchEnv) (force_overwrite : Bool) (j : Job)
    (failed : List Job) (handles : List (ℕ × ℕ)) : JobStep :=
  if env.outputExists j && !force_overwrite then .done (failed ++ [j]) handles
  else
    match env.outcome j with
    | .raiseOnOpenIn => .raised failed handles
    | .raiseOnOpenOut => .raised failed (handles ++ [inHandle j])
    | .raiseOnRun => .raised failed (handles ++ [inHandle j, outHandle j])
    | .success =>
      .done failed
        ((((handles ++ [inHandle j]) ++ [outHandle j]).erase (inHandle j)).erase
          (outHandle j))

/-- Final state of one driver run: the loop ran to `EOFError` (`completed`),
or an uncaught exception aborted it at some job, leaving the remaining jobs
unprocessed. -/
inductive BatchResult where
  | completed (failed : List Job) (handles : List (ℕ × ℕ))
  | aborted (failed : List Job) (handles : List (ℕ × ℕ)) (atJob : Job)
      (unprocessed : List Job)
deriving DecidableEq

/-- The driver loop of `main` over the queued jobs. -/
def runBatch (env : BatchEnv) (force_overwrite : Bool) :
    List Job → List Job → List (ℕ × ℕ) → BatchResult
  | [], failed, handles => .completed failed handles
  | j :: rest, failed, handles =>
    match processJob env force_overwrite j failed handles with
    | .done f h => runBatch env force_overwrite rest f h
    | .raised f h => .aborted f h j rest

/-- The failed-job list written to `failed_jobs.dat` (lines 63-67): only a run
that reaches the end of the loop dumps it, and only when non-empty; an
uncaught exception propagates out of `main` before the dump. -/
def persistedFailedJobs : BatchResult → Option (List Job)
  | .completed failed _ => if failed.isEmpty then none else some failed
  | .aborted _ _ _ _ => none

/-! Helper lemmas about the list operations of the embedding. -/

theorem applyMask_nil (xs : List α) : applyMask [] xs = [] := by
  cases xs <;> rfl

theorem applyMask_nil_right (m : List Bool) : applyMask m ([] : List α) = [] := by
  cases m with
  | nil => rfl
  | cons b m => cases b <;> rfl

theorem applyMask_cons_true (m : List Bool) (x : α) (xs : List α) :
    applyMask (true :: m) (x :: xs) = x :: applyMask m xs := rfl

theorem applyMask_cons_false (m : List Bool) (x : α) (xs : List α) :
    applyMask (false :: m) (x :: xs) = applyMask m xs := rfl

theorem applyMask_sublist (m : List Bool) (xs : List α) :
    List.Sublist (applyMask m xs) xs := by
  induction m generalizing xs with
  | nil => simp [applyMask_nil]
  | cons b m ih =>
    cases xs with
    | nil => simp [applyMask_nil_right]
    | cons x xs =>
      cases b with
      | true =>
        rw [applyMask_cons_true]
        exact (ih xs).cons₂ x
      | false =>
        rw [applyMask_cons_false]
        exact (ih xs).cons x

theorem applyMask_length_eq (m : List Bool) {xs : List α} {ys : List β}
    (h : xs.length = ys.length) :
    (applyMask m xs).length = (applyMask m ys).length := by
  induction m generalizing xs ys with
  | nil => simp [applyMask_nil]
  | cons b m ih =>
    cases xs with
    | nil =>
      cases ys with
      | nil => simp [applyMask_nil_right]
      | cons y ys => simp at h
    | cons x xs =>
      cases ys with
      | nil => simp at h
      | cons y ys =>
        cases b with
        | true =>
          rw [applyMask_cons_true, applyMask_cons_true]
          simpa using ih (by simpa using h)
        | false =>
          rw [applyMask_cons_false, applyMask_cons_false]
          exact ih (by simpa using h)

theorem applyMask_zip (m : List Bool) {xs : List α} {ys : List β}
    (h : xs.length = ys.length) :
    applyMask m (xs.zip ys) = (applyMask m xs).zip (applyMask m ys) := by
  induction m generalizing xs ys with
  | nil => simp [applyMask_nil]
  | cons b m ih =>
    cases xs with
    | nil =>
      cases ys with
      | nil => simp [applyMask_nil_right]
      | cons y ys => simp at h
    | cons x xs =>
      cases ys with
      | nil => simp at h
      | cons y ys =>
        cases b with
        | true =>
          rw [List.zip_cons_cons, applyMask_cons_true, applyMask_cons_true,
              applyMask_cons_true, List.zip_cons_cons, ih (by simpa using h)]
        | false =>
          rw [List.zip_cons_cons, applyMask_cons_false, applyMask_cons_false,
              applyMask_cons_false, ih (by simpa using h)]

theorem applyMask_mono {p q : α → Bool} (h : ∀ a, p a = true → q a = true)
    (ts : List α) (xs : List β) :
    List.Sublist (applyMask (ts.map p) xs) (applyMask (ts.map q) xs) := by
  induction ts generalizing xs with
  | nil => simp [applyMask_nil]
  | cons t ts ih =>
    cases xs with
    | nil => simp [applyMask_nil_right]
    | cons x xs =>
      by_cases hp : p t = true
      · rw [List.map_cons, List.map_cons, hp, h t hp, applyMask_cons_true,
            applyMask_cons_true]
        exact (ih xs).cons₂ x
      · have hp' : p t = false := by simpa using hp
        cases hq : q t with
        | true =>
          rw [List.map_cons, List.map_cons, hp', hq, applyMask_cons_false,
              applyMask_cons_true]
          exact (ih xs).cons x
        | false =>
          rw [List.map_cons, List.map_cons, hp', hq, applyMask_cons_false,
              applyMask_cons_false]
          exact ih xs

theorem takeZip (n : ℕ) (xs : List α) (ys : List β) :
    (xs.zip ys).take n = (xs.take n).zip (ys.take n) := by
  induction xs generalizing n ys with
  | nil => simp
  | cons x xs ih =>
    cases ys with
    | nil => simp
    | cons y ys =>
      cases n with
      | zero => simp
      | succ n => simp [List.zip_cons_cons, ih]

theorem getLastD_mem : ∀ (l : List α) (d : α), l ≠ [] → l.getLastD d ∈ l
  | [x], _, _ => by simp
  | x :: y :: t, d, _ => by
    rw [List.getLastD_cons]
    exact List.mem_cons_of_mem x (getLastD_mem (y :: t) x (by simp))

/-! Alignment and same-logical-event lemmas for the batch operations. -/

theorem alignedApplyMaskB {b : Batch} (h : Aligned b) (m : List Bool) :
    Aligned (applyMaskB m b) :=
  ⟨applyMask_length_eq m h.1, applyMask_length_eq m h.2.1,
   applyMask_length_eq m h.2.2.1, applyMask_length_eq m h.2.2.2⟩

theorem eventsApplyMaskB {b : Batch} (h : Aligned b) (m : List Bool) :
    (applyMaskB m b).events = applyMask m b.events := by
  obtain ⟨h1, h2, h3, h4⟩ := h
  show (applyMask m b.timestamps).zip ((applyMask m b.channels).zip
      ((applyMask m b.channel_indices).zip ((applyMask m b.source_indices).zip
        (applyMask m b.waveforms)))) = applyMask m b.events
  rw [← applyMask_zip m (h4.trans h1.symm),
      ← applyMask_zip m
        (show b.channel_indices.length = (b.source_indices.zip b.waveforms).length by
          simp [List.length_zip, h1, h3, h4]),
      ← applyMask_zip m
        (show b.channels.length =
            (b.channel_indices.zip (b.source_indices.zip b.waveforms)).length by
          simp [List.length_zip, h1, h2, h3, h4]),
      ← applyMask_zip m
        (show b.timestamps.length =
            (b.channels.zip (b.channel_indices.zip
              (b.source_indices.zip b.waveforms))).length by
          simp [List.length_zip, h1, h2, h3, h4])]
  rfl

theorem eventsNCApplyMaskB {b : Batch} (h : Aligned b) (m : List Bool) :
    (applyMaskB m b).eventsNC = applyMask m b.eventsNC := by
  obtain ⟨h1, h2, h3, h4⟩ := h
  show (applyMask m b.timestamps).zip ((applyMask m b.channel_indices).zip
      ((applyMask m b.source_indices).zip (applyMask m b.waveforms))) =
    applyMask m b.eventsNC
  rw [← applyMask_zip m (h4.trans h1.symm),
      ← applyMask_zip m
        (show b.channel_indices.length = (b.source_indices.zip b.waveforms).length by
          simp [List.length_zip, h1, h3, h4]),
      ← applyMask_zip m
        (show b.timestamps.length =
            (b.channel_indices.zip (b.source_indices.zip b.waveforms)).length by
          simp [List.length_zip, h1, h3, h4])]
  rfl

theorem eventsSublistApplyMaskB {b : Batch} (h : Aligned b) (m : List Bool) :
    List.Sublist (applyMaskB m b).events b.events := by
  rw [eventsApplyMaskB h m]
  exact applyMask_sublist m b.events

theorem alignedTakeB {b : Batch} (h : Aligned b) (n : ℕ) :
    Aligned (takeB n b) := by
  obtain ⟨h1, h2, h3, h4⟩ := h
  refine ⟨?_, ?_, ?_, ?_⟩ <;> simp [takeB, h1, h2, h3, h4]

theorem eventsTakeB (b : Batch) (n : ℕ) :
    (takeB n b).events = b.events.take n := by
  show (b.timestamps.take n).zip ((b.channels.take n).zip
      ((b.channel_indices.take n).zip ((b.source_indices.take n).zip
        (b.waveforms.take n)))) = b.events.take n
  rw [← takeZip, ← takeZip, ← takeZip, ← takeZip]
  rfl

/-! Additional small list lemmas. -/

theorem getD_map_of_lt {f : α → β} (l : List α) (i : ℕ) (h : i < l.length)
    (d : β) (d' : α) : (l.map f).getD i d = f (l.getD i d') := by
  induction l generalizing i with
  | nil => simp at h
  | cons x l ih =>
    cases i with
    | zero => simp
    | succ i => simpa using ih i (by simpa using h)

theorem getD_mem_of_lt (l : List α) (i : ℕ) (h : i < l.length) (d : α) :
    l.getD i d ∈ l := by
  induction l generalizing i with
  | nil => simp at h
  | cons x l ih =>
    cases i with
    | zero => simp
    | succ i => exact List.mem_cons_of_mem x (ih i (by simpa using h))

/-- C3: for every sampling rate, waveform-channel set and batch, running the
refractory-deduplication stage with `refractory_period = 0` is a true no-op:
the stage output is the batch exactly as it stood before the stage, with no
event removed and no channel reassigned (the stage body is guarded by
`refractory_period ~= 0` after the seconds-to-samples conversion, and
`round(0 * fs) = 0`). -/
theorem refractory_zero_noop (P : PipelineInput)
    (h : P.refractory_period = 0) : stage6 P = stage5 P := by
  unfold stage6 refractoryStage
  rw [h]
  norm_num [matround]

/-- Concrete two-event batch used by witnesses. -/
def demoBatchA : Batch :=
  ⟨[[[1]], [[2]]], [10, 5], [1, 2], [1, 2], [1, 2]⟩

/-- A concrete pipeline input with refractory period 0. -/
def demoP0 : PipelineInput :=
  ⟨demoBatchA, [1, 2], [1], false, [false, false], ArtifactReject.noReject, [],
   [[false], [false]], none, TrialMode.block, [(0, 100)], 1, none, 0⟩

/-- Witness for `refractory_zero_noop` at a concrete input. -/
theorem refractory_zero_noop_witness :
    demoP0.refractory_period = 0 ∧ stage6 demoP0 = stage5 demoP0 :=
  ⟨rfl, refractory_zero_noop demoP0 rfl⟩

theorem getD_map_div (l : List ℤ) (fs : ℚ) (i : ℕ) :
    (l.map (fun t => (t : ℚ) / fs)).getD i 0 = ((l.getD i 0 : ℤ) : ℚ) / fs := by
  induction l generalizing i with
  | nil => simp
  | cons x l ih =>
    cases i with
    | zero => simp
    | succ i => simpa using ih i

/-- C7 (amended): in every output record the `spiketimes` field (copied into
`unwrapped_times`) holds, per event, the stored integer sample-index timestamp
divided by `timestamps_fs`, i.e. the event time in seconds; the `timestamps`
field holds the raw sample indices unchanged. -/
theorem assemble_times (b : Batch) (fs : ℚ) (i : ℕ) :
    (assemble b fs).spiketimes.getD i 0 =
      (((assemble b fs).timestamps.getD i 0 : ℤ) : ℚ) / fs ∧
    (assemble b fs).timestamps = b.timestamps ∧
    (assemble b fs).unwrapped_times = (assemble b fs).spiketimes :=
  ⟨getD_map_div b.timestamps fs i, rfl, rfl⟩

/-- Concrete one-event batch with timestamp 1000 (sample units). -/
def demoBatchC7 : Batch := ⟨[[[0]]], [1000], [1], [1], [1]⟩

/-- C7 counterexample: at `timestamps_fs = 500` the `timestamps` field of the
assembled record holds the raw sample index 1000, not the event time in
seconds `1000 / 500 = 2`; the field holding seconds is `spiketimes`. -/
theorem assemble_timestamps_not_seconds :
    (assemble demoBatchC7 500).timestamps.map (fun t => ((t : ℤ) : ℚ)) ≠
      demoBatchC7.timestamps.map (fun t => ((t : ℤ) : ℚ) / 500) ∧
    (assemble demoBatchC7 500).spiketimes =
      demoBatchC7.timestamps.map (fun t => ((t : ℤ) : ℚ) / 500) := by
  constructor
  · intro heq
    simp only [assemble, demoBatchC7, List.map_cons, List.map_nil,
      List.cons.injEq, and_true] at heq
    norm_num at heq
  · rfl

/-- C2 (amended): a requested window whose converted, `samples_before`-shifted
and 1-based bounds lie inside `[1, stored_window_length]` succeeds, returning
exactly those bounds, and the result satisfies
`window_lb + align_sample = samples_before + 2` (equivalently, the alignment
sample marks the threshold crossing relative to the truncated window; the
chain `lower_bound ≤ align_sample ≤ upper_bound` of the original claim does
not hold in general).  A window whose converted lower bound falls below 1
fails with the lower-bound `WindowBoundsError`, checked first; one whose
converted upper bound exceeds the stored window length fails with the
upper-bound error.  The computation never looks at waveform data (its inputs
are configuration and store attributes only). -/
theorem spike_window_spec (lo hi fs : ℚ) (sb L : ℤ) :
    (1 ≤ msToSamples lo fs + sb + 1 → msToSamples hi fs + sb ≤ L →
      ∃ w, computeSpikeWindow lo hi fs sb L = Except.ok w ∧
        w.window_lb = msToSamples lo fs + sb + 1 ∧
        w.window_ub = msToSamples hi fs + sb ∧
        1 ≤ w.window_lb ∧ w.window_ub ≤ L ∧
        w.window_lb + w.align_sample = sb + 2) ∧
    (msToSamples lo fs + sb + 1 < 1 →
      computeSpikeWindow lo hi fs sb L = Except.error WindowError.lowerExceeds) ∧
    (1 ≤ msToSamples lo fs + sb + 1 → L < msToSamples hi fs + sb →
      computeSpikeWindow lo hi fs sb L = Except.error WindowError.upperExceeds) := by
  unfold computeSpikeWindow
  refine ⟨?_, ?_, ?_⟩
  · intro h1 h2
    rw [if_neg (by omega), if_neg (by omega)]
    exact ⟨_, rfl, rfl, rfl, by dsimp only; omega, by dsimp only; omega,
      by dsimp only; omega⟩
  · intro h
    rw [if_pos (by omega)]
  · intro h1 h2
    rw [if_neg (by omega), if_pos (by omega)]

theorem msToSamples_neg_two : msToSamples (-2) 1000 = -2 := by
  norm_num [msToSamples, matround]

theorem msToSamples_eight : msToSamples 8 1000 = 8 := by
  norm_num [msToSamples, matround]

/-- Witness for `spike_window_spec`: the window (-2 ms, 8 ms) at 1000 Hz with
`samples_before = 5` and a 20-sample stored window. -/
theorem spike_window_spec_witness :
    (1 ≤ msToSamples (-2) 1000 + 5 + 1) ∧ (msToSamples 8 1000 + 5 ≤ 20) ∧
    (∃ w, computeSpikeWindow (-2) 8 1000 5 20 = Except.ok w ∧
      w.window_lb = msToSamples (-2) 1000 + 5 + 1 ∧
      w.window_ub = msToSamples 8 1000 + 5 ∧
      1 ≤ w.window_lb ∧ w.window_ub ≤ 20 ∧
      w.window_lb + w.align_sample = 5 + 2) :=
  ⟨by simp [msToSamples_neg_two], by simp [msToSamples_eight],
   (spike_window_spec (-2) 8 1000 5 20).1 (by simp [msToSamples_neg_two])
     (by simp [msToSamples_eight])⟩

theorem msToSamples_neg_one : msToSamples (-1) 1000 = -1 := by
  norm_num [msToSamples, matround]

theorem msToSamples_ten : msToSamples 10 1000 = 10 := by
  norm_num [msToSamples, matround]

/-- C2 counterexample: the window (-1 ms, 10 ms) at 1000 Hz with
`samples_before = 5` and a 20-sample stored window is fully inside the stored
window and succeeds, but the result has `window_lb = 5 > align_sample = 2`,
falsifying the claimed `lower_bound ≤ align_sample ≤ upper_bound`. -/
theorem spike_window_align_counterexample :
    ∃ w, computeSpikeWindow (-1) 10 1000 5 20 = Except.ok w ∧
      w.window_lb = 5 ∧ w.align_sample = 2 ∧ ¬w.window_lb ≤ w.align_sample := by
  unfold computeSpikeWindow
  rw [msToSamples_neg_one, msToSamples_ten]
  rw [if_neg (by norm_num), if_neg (by norm_num)]
  exact ⟨_, rfl, by norm_num, by norm_num, by norm_num⟩

/-! Lemmas about `findAllFrom` feeding the `get_indices` claim. -/

theorem findAllFrom_count_zero (available : List ℤ) (c : ℤ) (k : ℕ)
    (h : available.count c = 0) : findAllFrom available c k = [] := by
  induction available generalizing k with
  | nil => rfl
  | cons a rest ih =>
    rw [List.count_cons] at h
    have hac : ¬a = c := by
      intro hh
      simp [hh] at h
    rw [findAllFrom, if_neg hac]
    exact ih (k + 1) (by omega)

theorem findAllFrom_length (available : List ℤ) (c : ℤ) (k : ℕ) :
    (findAllFrom available c k).length = available.count c := by
  induction available generalizing k with
  | nil => simp [findAllFrom]
  | cons a rest ih =>
    rw [List.count_cons]
    by_cases hac : a = c
    · rw [findAllFrom, if_pos hac]
      simp [ih (k + 1), hac]
    · rw [findAllFrom, if_neg hac]
      simp [ih (k + 1), hac]

theorem findAllFrom_count_one (available : List ℤ) (c : ℤ) (k : ℕ)
    (h : available.count c = 1) :
    ∃ i, findAllFrom available c k = [i] ∧ k ≤ i ∧ i - k < available.length ∧
      available.getD (i - k) 0 = c := by
  induction available generalizing k with
  | nil => simp at h
  | cons a rest ih =>
    rw [List.count_cons] at h
    by_cases hac : a = c
    · have hrest : rest.count c = 0 := by simp [hac] at h; omega
      refine ⟨k, ?_, le_refl k, by simp, ?_⟩
      · rw [findAllFrom, if_pos hac, findAllFrom_count_zero rest c (k + 1) hrest]
      · simpa [Nat.sub_self] using hac
    · have hrest : rest.count c = 1 := by simpa [hac] using h
      obtain ⟨i, hfa, hki, hlt, hget⟩ := ih (k + 1) hrest
      refine ⟨i, ?_, by omega, by simpa using by omega, ?_⟩
      · rw [findAllFrom, if_neg hac, hfa]
      · have hik : i - k = (i - (k + 1)) + 1 := by omega
        rw [hik, List.getD_cons_succ]
        exact hget

/-- C6 (amended): when every requested channel occurs exactly once in
`extracted_channels`, channel resolution returns an ordered list of column
positions with the same length and order as the request (the i-th output is
the position of the i-th requested channel).  When some requested channel is
absent, or occurs more than once, it fails — but with the one exception object
`Neurobehavior:InvalidChannel` ("Channel not available for extraction") in
both cases; the code does not raise distinct ChannelNotFound / AmbiguousChannel
error kinds. -/
theorem get_indices_spec (channels available : List ℤ) :
    ((∀ c ∈ channels, available.count c = 1) →
      ∃ idxs, get_indices channels available = Except.ok idxs ∧
        idxs.length = channels.length ∧
        ∀ i, i < channels.length →
          idxs.getD i 0 < available.length ∧
          available.getD (idxs.getD i 0) 0 = channels.getD i 0) ∧
    ((∃ c ∈ channels, available.count c ≠ 1) →
      get_indices channels available = Except.error invalidChannelError) := by
  induction channels with
  | nil =>
    constructor
    · intro _
      exact ⟨[], rfl, rfl, fun i hi => absurd hi (by simp)⟩
    · rintro ⟨c, hc, _⟩
      cases hc
  | cons c cs ih =>
    constructor
    · intro h
      have hc : available.count c = 1 := h c (List.mem_cons_self c cs)
      obtain ⟨i, hfa, -, hlt, hget⟩ := findAllFrom_count_one available c 0 hc
      obtain ⟨rest, hrest, hlen, hprop⟩ :=
        ih.1 (fun x hx => h x (List.mem_cons_of_mem c hx))
      refine ⟨i :: rest, ?_, by simpa using hlen, ?_⟩
      · rw [get_indices, show findAll available c = [i] from hfa, hrest]
      · intro j hj
        cases j with
        | zero =>
          rw [Nat.sub_zero] at hlt hget
          simp only [List.getD_cons_zero]
          exact ⟨hlt, hget⟩
        | succ j =>
          simp only [List.getD_cons_succ]
          exact hprop j (by simpa using hj)
    · rintro ⟨x, hx, hcount⟩
      rcases List.mem_cons.mp hx with rfl | hxs
      · have hlen : (findAll available x).length ≠ 1 := by
          rw [show findAll available x = findAllFrom available x 0 from rfl,
            findAllFrom_length]
          exact hcount
        rw [get_indices]
        rcases hfa : findAll available x with - | ⟨i, - | ⟨i2, t⟩⟩
        · rfl
        · rw [hfa] at hlen
          simp at hlen
        · rfl
      · by_cases hc : available.count c = 1
        · obtain ⟨i, hfa, -, -, -⟩ := findAllFrom_count_one available c 0 hc
          rw [get_indices, show findAll available c = [i] from hfa,
            ih.2 ⟨x, hxs, hcount⟩]
        · have hlen : (findAll available c).length ≠ 1 := by
            rw [show findAll available c = findAllFrom available c 0 from rfl,
              findAllFrom_length]
            exact hc
          rw [get_indices]
          rcases hfa : findAll available c with - | ⟨i, - | ⟨i2, t⟩⟩
          · rfl
          · rw [hfa] at hlen
            simp at hlen
          · rfl

/-- Witness for `get_indices_spec`: the request [3, 1] against extracted
channels [1, 2, 3] resolves to the column positions [2, 0], in request
order. -/
theorem get_indices_spec_witness :
    (∀ c ∈ ([3, 1] : List ℤ), ([1, 2, 3] : List ℤ).count c = 1) ∧
    (∃ idxs, get_indices [3, 1] [1, 2, 3] = Except.ok idxs ∧
      idxs.length = ([3, 1] : List ℤ).length ∧
      ∀ i, i < ([3, 1] : List ℤ).length →
        idxs.getD i 0 < ([1, 2, 3] : List ℤ).length ∧
        ([1, 2, 3] : List ℤ).getD (idxs.getD i 0) 0 =
          ([3, 1] : List ℤ).getD i 0) :=
  ⟨by decide, (get_indices_spec [3, 1] [1, 2, 3]).1 (by decide)⟩

/-- C6 counterexample: an absent channel (2 not in [1, 3]) and a duplicated
channel (2 twice in [2, 2]) make `get_indices` fail with the *same* exception
value `Neurobehavior:InvalidChannel`; there are no distinct ChannelNotFound
and AmbiguousChannel error kinds in the code. -/
theorem get_indices_single_error_kind :
    get_indices [2] [1, 3] = get_indices [2] [2, 2] ∧
    get_indices [2] [1, 3] = Except.error invalidChannelError := by
  constructor <;> rfl

theorem maskStep {b : Batch} (h : Aligned b) (m : List Bool) :
    Aligned (applyMaskB m b) ∧ List.Sublist (applyMaskB m b).events b.events :=
  ⟨alignedApplyMaskB h m, eventsSublistApplyMaskB h m⟩

/-- C1: for every input store (any loaded batch whose five parallel arrays
agree in length) and every configuration, at each of the six filter-stage
boundaries the parallel sequences timestamps, channels, channel_indices,
source_indices and the event axis of waveforms have identical length
(`Aligned`), and index i in every sequence refers to the same logical event:
the zipped per-event tuple list of each boundary is a sublist of the previous
boundary's tuple list, every stage winnowing all five arrays with one shared
mask (or one shared prefix).  At the refractory boundary the channel field of
a surviving event is recomputed from that same event's waveform (or the stage
is a no-op), so the tuple-sublist statement there is over the four
non-recomputed sequences. -/
theorem pipeline_parallel_invariant (P : PipelineInput) (h0 : Aligned P.b0) :
    (Aligned (stage1 P).1 ∧ List.Sublist (stage1 P).1.events P.b0.events) ∧
    (Aligned (stage2 P).1 ∧ List.Sublist (stage2 P).1.events (stage1 P).1.events) ∧
    (Aligned (stage3 P) ∧ List.Sublist (stage3 P).events (stage2 P).1.events) ∧
    (Aligned (stage4 P) ∧ List.Sublist (stage4 P).events (stage3 P).events) ∧
    (Aligned (stage5 P) ∧ List.Sublist (stage5 P).events (stage4 P).events) ∧
    (Aligned (stage6 P) ∧
      List.Sublist (stage6 P).eventsNC (stage5 P).eventsNC ∧
      (stage6 P = stage5 P ∨
        (stage6 P).channels =
          (stage6 P).waveforms.map (reassignChannel P.waveform_channels))) := by
  have s1 : Aligned (stage1 P).1 ∧ List.Sublist (stage1 P).1.events P.b0.events := by
    unfold stage1 detectStage
    by_cases hd : P.detect_channels.isEmpty = true
    · rw [if_pos hd]
      exact ⟨h0, List.Sublist.refl _⟩
    · rw [if_neg hd]
      exact maskStep h0 _
  have s2 : Aligned (stage2 P).1 ∧
      List.Sublist (stage2 P).1.events (stage1 P).1.events := by
    unfold stage2 censorStage
    by_cases he : P.exclude_censored = true
    · rw [if_pos he]
      exact maskStep s1.1 _
    · rw [if_neg he]
      exact ⟨s1.1, List.Sublist.refl _⟩
  have s3 : Aligned (stage3 P) ∧
      List.Sublist (stage3 P).events (stage2 P).1.events := by
    unfold stage3 artifactStage
    cases P.artifact_mode with
    | noReject => exact ⟨s2.1, List.Sublist.refl _⟩
    | rejectAll => exact maskStep s2.1 _
    | rejectDetect => exact maskStep s2.1 _
    | rejectWaveform => exact maskStep s2.1 _
    | rejectList chs => exact maskStep s2.1 _
  have s4 : Aligned (stage4 P) ∧
      List.Sublist (stage4 P).events (stage3 P).events := by
    unfold stage4 trialStage
    cases P.trial_range with
    | none => exact ⟨s3.1, List.Sublist.refl _⟩
    | some r => exact maskStep s3.1 _
  have s5 : Aligned (stage5 P) ∧
      List.Sublist (stage5 P).events (stage4 P).events := by
    unfold stage5 maxCountStage
    cases P.max_features with
    | none => exact ⟨s4.1, List.Sublist.refl _⟩
    | some n =>
      dsimp only
      by_cases hn : n < (stage4 P).timestamps.length
      · rw [if_pos hn]
        refine ⟨alignedTakeB s4.1 n, ?_⟩
        rw [eventsTakeB]
        exact List.take_sublist n _
      · rw [if_neg hn]
        exact ⟨s4.1, List.Sublist.refl _⟩
  have s6 : Aligned (stage6 P) ∧
      List.Sublist (stage6 P).eventsNC (stage5 P).eventsNC ∧
      (stage6 P = stage5 P ∨
        (stage6 P).channels =
          (stage6 P).waveforms.map (reassignChannel P.waveform_channels)) := by
    unfold stage6 refractoryStage
    by_cases hp : matround (P.refractory_period * P.fs) = 0
    · rw [if_pos hp]
      exact ⟨s5.1, List.Sublist.refl _, Or.inl rfl⟩
    · rw [if_neg hp]
      obtain ⟨k1, k2, k3, k4⟩ := alignedApplyMaskB s5.1
        (keepMask (stage5 P).timestamps.length
          ((violPositions ((sortIdx (stage5 P).timestamps).map
            (fun i => (stage5 P).timestamps.getD i 0))
            (matround (P.refractory_period * P.fs))).map
            (fun k => (sortIdx (stage5 P).timestamps).getD k 0)))
      refine ⟨⟨k1, ?_, k3, k4⟩, ?_, Or.inr rfl⟩
      · simpa using k1
      · show List.Sublist (applyMaskB _ (stage5 P)).eventsNC (stage5 P).eventsNC
        rw [eventsNCApplyMaskB s5.1]
        exact applyMask_sublist _ _
  exact ⟨s1, s2, s3, s4, s5, s6⟩

/-- A concrete pipeline input exercising every stage (censor on, artifact
reject all, individual trial mode, max count 1, refractory period 1 s). -/
def demoP1 : PipelineInput :=
  ⟨demoBatchA, [1, 2], [1], true, [false, true], ArtifactReject.rejectAll, [0],
   [[false], [false]], some (0, 1), TrialMode.individual, [(0, 100)], 1,
   some 1, 1⟩

/-- Witness for `pipeline_parallel_invariant` at a concrete input. -/
theorem pipeline_parallel_invariant_witness :
    Aligned demoP1.b0 ∧
    ((Aligned (stage1 demoP1).1 ∧
        List.Sublist (stage1 demoP1).1.events demoP1.b0.events) ∧
     (Aligned (stage2 demoP1).1 ∧
        List.Sublist (stage2 demoP1).1.events (stage1 demoP1).1.events) ∧
     (Aligned (stage3 demoP1) ∧
        List.Sublist (stage3 demoP1).events (stage2 demoP1).1.events) ∧
     (Aligned (stage4 demoP1) ∧
        List.Sublist (stage4 demoP1).events (stage3 demoP1).events) ∧
     (Aligned (stage5 demoP1) ∧
        List.Sublist (stage5 demoP1).events (stage4 demoP1).events) ∧
     (Aligned (stage6 demoP1) ∧
        List.Sublist (stage6 demoP1).eventsNC (stage5 demoP1).eventsNC ∧
        (stage6 demoP1 = stage5 demoP1 ∨
          (stage6 demoP1).channels =
            (stage6 demoP1).waveforms.map
              (reassignChannel demoP1.waveform_channels)))) :=
  ⟨by decide, pipeline_parallel_invariant demoP1 (by decide)⟩

theorem stage_source_chain (P : PipelineInput) :
    List.Sublist (stage6 P).source_indices P.b0.source_indices := by
  have t1 : List.Sublist (stage1 P).1.source_indices P.b0.source_indices := by
    unfold stage1 detectStage
    by_cases hd : P.detect_channels.isEmpty = true
    · rw [if_pos hd]
    · rw [if_neg hd]
      exact applyMask_sublist _ _
  have t2 : List.Sublist (stage2 P).1.source_indices (stage1 P).1.source_indices := by
    unfold stage2 censorStage
    by_cases he : P.exclude_censored = true
    · rw [if_pos he]
      exact applyMask_sublist _ _
    · rw [if_neg he]
  have t3 : List.Sublist (stage3 P).source_indices (stage2 P).1.source_indices := by
    unfold stage3 artifactStage
    cases P.artifact_mode with
    | noReject => exact List.Sublist.refl _
    | rejectAll => exact applyMask_sublist _ _
    | rejectDetect => exact applyMask_sublist _ _
    | rejectWaveform => exact applyMask_sublist _ _
    | rejectList chs => exact applyMask_sublist _ _
  have t4 : List.Sublist (stage4 P).source_indices (stage3 P).source_indices := by
    unfold stage4 trialStage
    cases P.trial_range with
    | none => exact List.Sublist.refl _
    | some r => exact applyMask_sublist _ _
  have t5 : List.Sublist (stage5 P).source_indices (stage4 P).source_indices := by
    unfold stage5 maxCountStage
    cases P.max_features with
    | none => exact List.Sublist.refl _
    | some n =>
      dsimp only
      by_cases hn : n < (stage4 P).timestamps.length
      · rw [if_pos hn]
        exact List.take_sublist _ _
      · rw [if_neg hn]
  have t6 : List.Sublist (stage6 P).source_indices (stage5 P).source_indices := by
    unfold stage6 refractoryStage
    by_cases hp : matround (P.refractory_period * P.fs) = 0
    · rw [if_pos hp]
    · rw [if_neg hp]
      exact applyMask_sublist _ _
  exact t6.trans (t5.trans (t4.trans (t3.trans (t2.trans t1))))

/-- The pipeline input one extraction call builds from a raw store and its
configuration. -/
def mkPipelineInput (s : Store) (waveform_gain : ℚ) (extract_indices : List ℕ)
    (dc wch : List ℤ) (excl : Bool) (amode : ArtifactReject) (aidx : List ℕ)
    (tr : Option (ℚ × ℚ)) (tmode : TrialMode) (mf : Option ℕ) (rp : ℚ) :
    PipelineInput :=
  ⟨initialBatch s waveform_gain extract_indices, dc, wch, excl, s.censored,
   amode, aidx, s.artifacts, tr, tmode, epochsOf s.trial_log s.timestamps_fs,
   s.timestamps_fs, mf, rp⟩

/-- C10: for every store and configuration, `source_indices` starts as
`1, 2, ..., N` (N the event count of the untouched store) before any
filtering, and the sequence the pipeline outputs after all six stages is a
sublist of `1..N` — every stage deletes elements without reordering the
survivors — hence strictly increasing. -/
theorem source_indices_increasing (s : Store) (wgain : ℚ) (eidx : List ℕ)
    (dc wch : List ℤ) (excl : Bool) (amode : ArtifactReject) (aidx : List ℕ)
    (tr : Option (ℚ × ℚ)) (tmode : TrialMode) (mf : Option ℕ) (rp : ℚ) :
    (initialBatch s wgain eidx).source_indices =
      List.range' 1 s.timestamps.length ∧
    List.Sublist
      ((stage6 (mkPipelineInput s wgain eidx dc wch excl amode aidx tr tmode
        mf rp)).source_indices)
      (List.range' 1 s.timestamps.length) ∧
    ((stage6 (mkPipelineInput s wgain eidx dc wch excl amode aidx tr tmode
      mf rp)).source_indices).Pairwise (· < ·) := by
  have hchain := stage_source_chain
    (mkPipelineInput s wgain eidx dc wch excl amode aidx tr tmode mf rp)
  have hb0 : (mkPipelineInput s wgain eidx dc wch excl amode aidx tr tmode
      mf rp).b0.source_indices = List.range' 1 s.timestamps.length := rfl
  rw [hb0] at hchain
  exact ⟨rfl, hchain,
    (List.pairwise_lt_range' 1 s.timestamps.length).sublist hchain⟩

theorem headD_fst_le_of_mem {epochs : List (ℤ × ℤ)}
    (hmono : epochs.Pairwise (fun e f => e.1 ≤ f.1 ∧ e.2 ≤ f.2))
    {e : ℤ × ℤ} (he : e ∈ epochs) (d : ℤ × ℤ) :
    (epochs.headD d).1 ≤ e.1 := by
  cases epochs with
  | nil => cases he
  | cons h t =>
    rcases List.mem_cons.mp he with rfl | ht
    · simp
    · exact ((List.pairwise_cons.mp hmono).1 e ht).1

theorem snd_le_getLastD_of_mem {epochs : List (ℤ × ℤ)}
    (hmono : epochs.Pairwise (fun e f => e.1 ≤ f.1 ∧ e.2 ≤ f.2))
    {e : ℤ × ℤ} (he : e ∈ epochs) (d : ℤ × ℤ) :
    e.2 ≤ (epochs.getLastD d).2 := by
  induction epochs generalizing d with
  | nil => cases he
  | cons h t ih =>
    rw [List.getLastD_cons]
    rcases List.mem_cons.mp he with rfl | ht
    · cases t with
      | nil => simp
      | cons y ts =>
        have hmem : (y :: ts).getLastD e ∈ y :: ts :=
          getLastD_mem (y :: ts) e (by simp)
        exact ((List.pairwise_cons.mp hmono).1 _ hmem).2
    · exact ih (List.pairwise_cons.mp hmono).2 ht h

/-- Any event the individual-mode test keeps, the block-mode test keeps too,
provided the epochs are ascending and nonempty. -/
theorem trialKeep_individual_imp_block {epochs : List (ℤ × ℤ)} (lb ub : ℤ)
    (hmono : epochs.Pairwise (fun e f => e.1 ≤ f.1 ∧ e.2 ≤ f.2)) :
    ∀ t, trialKeepIndividual epochs lb ub t = true →
      trialKeepBlock epochs lb ub t = true := by
  intro t h
  rw [trialKeepIndividual, List.any_eq_true] at h
  obtain ⟨e, he, hcond⟩ := h
  rw [Bool.and_eq_true, decide_eq_true_eq, decide_eq_true_eq] at hcond
  rw [trialKeepBlock, Bool.and_eq_true, decide_eq_true_eq, decide_eq_true_eq]
  have h1 := headD_fst_le_of_mem hmono he (0, 0)
  have h2 := snd_le_getLastD_of_mem hmono he (0, 0)
  omega

/-- C5: for every aligned batch, every trial-epoch list ascending in time
(both starts and ends monotone) and identical trial-range bounds, the events
surviving the trial-range filter in block mode form a superset of the events
surviving in individual mode: the individual-mode survivor tuples are a
sublist of — hence all members of — the block-mode survivor tuples. -/
theorem trial_block_superset (r : ℚ × ℚ) (fs : ℚ) (epochs : List (ℤ × ℤ))
    (b : Batch) (hA : Aligned b)
    (hmono : epochs.Pairwise (fun e f => e.1 ≤ f.1 ∧ e.2 ≤ f.2)) :
    List.Sublist
      (trialStage (some r) TrialMode.individual epochs fs b).events
      (trialStage (some r) TrialMode.block epochs fs b).events ∧
    ∀ e, e ∈ (trialStage (some r) TrialMode.individual epochs fs b).events →
      e ∈ (trialStage (some r) TrialMode.block epochs fs b).events := by
  have hsub : List.Sublist
      (trialStage (some r) TrialMode.individual epochs fs b).events
      (trialStage (some r) TrialMode.block epochs fs b).events := by
    unfold trialStage
    rw [eventsApplyMaskB hA, eventsApplyMaskB hA]
    exact applyMask_mono
      (trialKeep_individual_imp_block (matround (r.1 * fs))
        (matround (r.2 * fs)) hmono) b.timestamps b.events
  exact ⟨hsub, fun e he => hsub.subset he⟩

/-- Witness for `trial_block_superset`: two ascending epochs and the batch
`demoBatchA`. -/
theorem trial_block_superset_witness :
    Aligned demoBatchA ∧
    ([((0 : ℤ), (10 : ℤ)), (20, 30)].Pairwise (fun e f => e.1 ≤ f.1 ∧ e.2 ≤ f.2)) ∧
    (List.Sublist
      (trialStage (some (0, 1)) TrialMode.individual [(0, 10), (20, 30)] 1
        demoBatchA).events
      (trialStage (some (0, 1)) TrialMode.block [(0, 10), (20, 30)] 1
        demoBatchA).events ∧
    ∀ e, e ∈ (trialStage (some (0, 1)) TrialMode.individual [(0, 10), (20, 30)]
        1 demoBatchA).events →
      e ∈ (trialStage (some (0, 1)) TrialMode.block [(0, 10), (20, 30)] 1
        demoBatchA).events) :=
  ⟨by decide, by decide,
   trial_block_superset (0, 1) 1 [(0, 10), (20, 30)] demoBatchA (by decide)
     (by decide)⟩

/-! Lemmas about `listMax` and `argmax` (MATLAB `max` over a vector and its
first maximizing index). -/

theorem getD_le_listMax : ∀ (l : List ℚ) (j : ℕ), j < l.length →
    l.getD j 0 ≤ listMax l
  | [x], 0, _ => le_refl x
  | [_], j + 1, h => absurd h (by simp)
  | _ :: _ :: _, 0, _ => le_max_left _ _
  | _ :: y :: xs, j + 1, h =>
    le_trans (getD_le_listMax (y :: xs) j (by simpa using h)) (le_max_right _ _)

theorem argmax_lt_length : ∀ (l : List ℚ), l ≠ [] → argmax l < l.length
  | [_], _ => by simp [argmax]
  | x :: y :: xs, _ => by
    rw [argmax]
    by_cases h : listMax (y :: xs) ≤ x
    · rw [if_pos h]
      simp
    · rw [if_neg h]
      have := argmax_lt_length (y :: xs) (by simp)
      simpa using Nat.succ_lt_succ this

theorem argmax_getD_eq : ∀ (l : List ℚ), l ≠ [] →
    l.getD (argmax l) 0 = listMax l
  | [_], _ => rfl
  | x :: y :: xs, _ => by
    rw [argmax]
    by_cases h : listMax (y :: xs) ≤ x
    · rw [if_pos h]
      show x = max x (listMax (y :: xs))
      exact (max_eq_left h).symm
    · rw [if_neg h]
      show (y :: xs).getD (argmax (y :: xs)) 0 = max x (listMax (y :: xs))
      rw [argmax_getD_eq (y :: xs) (by simp)]
      exact (max_eq_right (le_of_not_le h)).symm

/-- The reassigned channel is a member of the waveform-channel set and its
per-channel maximum deflection dominates every channel of the loaded
waveform. -/
theorem reassign_spec (wch : List ℤ) (hne : wch ≠ []) (w : Waveform)
    (hwlen : w.length = wch.length) :
    reassignChannel wch w ∈ wch ∧
    ∀ j, j < w.length → listMax (w.getD j []) ≤
      listMax (w.getD (argmax (w.map listMax)) []) := by
  have hw0 : w ≠ [] := by
    intro h
    rw [h] at hwlen
    exact hne (List.length_eq_zero.mp hwlen.symm)
  have hmapne : w.map listMax ≠ [] := by simpa using hw0
  have hax : argmax (w.map listMax) < w.length := by
    have := argmax_lt_length (w.map listMax) hmapne
    simpa using this
  constructor
  · exact getD_mem_of_lt wch _ (by rw [← hwlen]; exact hax) 0
  · intro j hj
    have h1 : (w.map listMax).getD j 0 ≤ listMax (w.map listMax) :=
      getD_le_listMax (w.map listMax) j (by simpa using hj)
    have h2 : (w.map listMax).getD (argmax (w.map listMax)) 0 =
        listMax (w.map listMax) := argmax_getD_eq (w.map listMax) hmapne
    rw [getD_map_of_lt w j hj 0 []] at h1
    rw [getD_map_of_lt w _ hax 0 []] at h2
    rw [← h2] at h1
    exact h1

/-- C4 (amended): in every run whose refractory period converts to a non-zero
sample count, after the violating events are removed every surviving event's
channel field is overwritten with `waveform_channels(i)`, `i` the first index
maximizing — over the channels of the *loaded* waveform, i.e. the requested
waveform-channel set, not all originally extracted channels — the maximum
over samples of that event's waveform; the assigned channel is a member of
`waveform_channels` and its deflection dominates every loaded channel. -/
theorem refractory_reassign (rp fs : ℚ) (wch : List ℤ) (b : Batch)
    (hp : matround (rp * fs) ≠ 0)
    (hw : ∀ w ∈ b.waveforms, w.length = wch.length) (hne : wch ≠ []) :
    ∀ i, i < (refractoryStage rp fs wch b).waveforms.length →
      ((refractoryStage rp fs wch b).channels.getD i 0 =
        reassignChannel wch ((refractoryStage rp fs wch b).waveforms.getD i []) ∧
      (refractoryStage rp fs wch b).channels.getD i 0 ∈ wch ∧
      ∀ j, j < ((refractoryStage rp fs wch b).waveforms.getD i []).length →
        listMax (((refractoryStage rp fs wch b).waveforms.getD i []).getD j []) ≤
          listMax (((refractoryStage rp fs wch b).waveforms.getD i []).getD
            (argmax (((refractoryStage rp fs wch b).waveforms.getD i []).map
              listMax)) [])) := by
  have hch : (refractoryStage rp fs wch b).channels =
      (refractoryStage rp fs wch b).waveforms.map (reassignChannel wch) := by
    unfold refractoryStage
    rw [if_neg hp]
  have hsub : List.Sublist (refractoryStage rp fs wch b).waveforms
      b.waveforms := by
    unfold refractoryStage
    rw [if_neg hp]
    exact applyMask_sublist _ _
  intro i hi
  have hmem : (refractoryStage rp fs wch b).waveforms.getD i [] ∈ b.waveforms :=
    hsub.subset (getD_mem_of_lt _ i hi [])
  have hspec := reassign_spec wch hne _ (hw _ hmem)
  have hgetch : (refractoryStage rp fs wch b).channels.getD i 0 =
      reassignChannel wch ((refractoryStage rp fs wch b).waveforms.getD i []) := by
    rw [hch]
    exact getD_map_of_lt _ i hi 0 []
  refine ⟨hgetch, ?_, hspec.2⟩
  rw [hgetch]
  exact hspec.1

/-- Modelled from the claim's wording (spec §4.5 and §9): the channel, among
*all* originally extracted channels, at which the maximum over samples of the
event's full stored waveform is largest. -/
def claimedReassignChannel (extracted_channels : List ℤ) (w : Waveform) : ℤ :=
  extracted_channels.getD (argmax (w.map listMax)) 0

/-- A stored two-channel waveform: deflection 1 on channel 1, 5 on channel 2. -/
def demoStoreWaveform : Waveform := [[1], [5]]

/-- One event whose loaded waveform is the channel-1 column of
`demoStoreWaveform`. -/
def demoBatchC4 : Batch :=
  ⟨[loadWaveform [0] demoStoreWaveform], [100], [1], [1], [1]⟩

theorem matround_one : matround ((1 : ℚ) * 1) = 1 := by
  norm_num [matround]

theorem matround_one_simple : matround (1 : ℚ) = 1 := by
  norm_num [matround]

/-- C4 counterexample: extracted channels [1, 2], requested waveform channels
[1] (resolving to column 0), one surviving event whose stored waveform peaks
at 1 on channel 1 and at 5 on channel 2.  The refractory stage (period 1 s at
1 Hz, no violations) assigns channel 1 — the argmax runs only over the loaded
waveform-channel set — whereas the claimed rule (argmax over all extracted
channels of the full stored waveform) yields channel 2. -/
theorem refractory_reassign_counterexample :
    get_indices [1] [1, 2] = Except.ok [0] ∧
    demoBatchC4.waveforms = [loadWaveform [0] demoStoreWaveform] ∧
    (refractoryStage 1 1 [1] demoBatchC4).channels = [1] ∧
    claimedReassignChannel [1, 2] demoStoreWaveform = 2 ∧
    (1 : ℤ) ≠ 2 := by
  refine ⟨rfl, rfl, ?_, ?_, by decide⟩
  · unfold refractoryStage
    rw [matround_one, if_neg (by decide)]
    decide
  · unfold claimedReassignChannel demoStoreWaveform
    rw [show ([[(1 : ℚ)], [5]] : Waveform).map listMax = [1, 5] from rfl,
      show argmax [(1 : ℚ), 5] = 1 by
        rw [argmax, if_neg (by norm_num [listMax])]
        rfl]
    rfl

/-- Witness for `refractory_reassign` at the concrete input of the
counterexample scenario. -/
theorem refractory_reassign_witness :
    matround ((1 : ℚ) * 1) ≠ 0 ∧
    (∀ w ∈ demoBatchC4.waveforms, w.length = ([1] : List ℤ).length) ∧
    ([1] : List ℤ) ≠ [] ∧
    ∀ i, i < (refractoryStage 1 1 [1] demoBatchC4).waveforms.length →
      ((refractoryStage 1 1 [1] demoBatchC4).channels.getD i 0 =
        reassignChannel [1]
          ((refractoryStage 1 1 [1] demoBatchC4).waveforms.getD i []) ∧
      (refractoryStage 1 1 [1] demoBatchC4).channels.getD i 0 ∈ ([1] : List ℤ) ∧
      ∀ j, j < ((refractoryStage 1 1 [1] demoBatchC4).waveforms.getD i []).length →
        listMax (((refractoryStage 1 1 [1] demoBatchC4).waveforms.getD
            i []).getD j []) ≤
          listMax (((refractoryStage 1 1 [1] demoBatchC4).waveforms.getD
            i []).getD
            (argmax (((refractoryStage 1 1 [1] demoBatchC4).waveforms.getD
              i []).map listMax)) [])) :=
  ⟨by simp [matround_one_simple], by decide, by decide,
   refractory_reassign 1 1 [1] demoBatchC4 (by simp [matround_one_simple])
     (by decide) (by decide)⟩

/-- The handles a job leaves open when its processing raises: everything
acquired before the failing point (nothing on an input-open failure, the
input handle on an output-open failure, both handles on a failure of the
operation itself). -/
def leakedHandles (env : BatchEnv) (j : Job) : List (ℕ × ℕ) :=
  match env.outcome j with
  | .raiseOnOpenIn => []
  | .raiseOnOpenOut => [inHandle j]
  | .raiseOnRun => [inHandle j, outHandle j]
  | .success => []

theorem runBatch_handles (env : BatchEnv) (force : Bool) :
    ∀ (jobs failed : List Job),
      (∀ f hs, runBatch env force jobs failed [] = BatchResult.completed f hs →
        hs = []) ∧
      (∀ f hs j rest,
        runBatch env force jobs failed [] = BatchResult.aborted f hs j rest →
          hs = leakedHandles env j) := by
  intro jobs
  induction jobs with
  | nil =>
    intro failed
    refine ⟨?_, ?_⟩
    · intro f hs h
      unfold runBatch at h
      cases h
      rfl
    · intro f hs j2 rest2 h
      unfold runBatch at h
      exact absurd h (by simp)
  | cons j rest ih =>
    intro failed
    unfold runBatch processJob
    by_cases hpre : (env.outputExists j && !force) = true
    · rw [if_pos hpre]
      exact ih (failed ++ [j])
    · rw [if_neg hpre]
      cases houtcome : env.outcome j with
      | raiseOnOpenIn =>
        refine ⟨?_, ?_⟩
        · intro f hs h
          exact absurd h (by simp)
        · intro f hs j2 rest2 h
          cases h
          simp [leakedHandles, houtcome]
      | raiseOnOpenOut =>
        refine ⟨?_, ?_⟩
        · intro f hs h
          exact absurd h (by simp)
        · intro f hs j2 rest2 h
          cases h
          simp [leakedHandles, houtcome]
      | raiseOnRun =>
        refine ⟨?_, ?_⟩
        · intro f hs h
          exact absurd h (by simp)
        · intro f hs j2 rest2 h
          cases h
          simp [leakedHandles, houtcome]
      | success =>
        have herase : ((((([] : List (ℕ × ℕ)) ++ [inHandle j]) ++
            [outHandle j]).erase (inHandle j)).erase (outHandle j)) = [] := by
          simp [List.erase_cons_head]
        rw [herase]
        exact ih failed

/-- C9 (amended): in a driver run started with no open handles, the store
handles are released on the success and precondition-skip paths — a run that
reaches the end of the job queue ends with no handle open — but *not* on
every exit path: when a job raises after acquisition, the run aborts with
exactly the handles acquired before the failing point still open (both
handles when the operation raises, the input handle when opening the output
raises); when acquiring the input handle itself fails, no handle was acquired
and none is open, so no release of a never-acquired handle is attempted. -/
theorem batch_handle_scoping (env : BatchEnv) (force : Bool) (jobs : List Job) :
    (∀ f hs, runBatch env force jobs [] [] = BatchResult.completed f hs →
      hs = []) ∧
    (∀ f hs j rest,
      runBatch env force jobs [] [] = BatchResult.aborted f hs j rest →
        hs = leakedHandles env j) :=
  runBatch_handles env force jobs []

/-- A job whose processing raises while the operation runs. -/
def demoJobC9 : Job := ⟨3, 12, 22⟩

/-- An environment where no output exists and every job raises mid-run. -/
def demoEnvC9 : BatchEnv := ⟨fun _ => false, fun _ => JobOutcome.raiseOnRun⟩

/-- Witness for `batch_handle_scoping` at a concrete aborted run. -/
theorem batch_handle_scoping_witness :
    runBatch demoEnvC9 false [demoJobC9] [] [] =
      BatchResult.aborted [] [inHandle demoJobC9, outHandle demoJobC9]
        demoJobC9 [] ∧
    [inHandle demoJobC9, outHandle demoJobC9] =
      leakedHandles demoEnvC9 demoJobC9 :=
  ⟨rfl, (batch_handle_scoping demoEnvC9 false [demoJobC9]).2 []
    [inHandle demoJobC9, outHandle demoJobC9] demoJobC9 [] rfl⟩

/-- C9 counterexample: a job that raises during processing is an exit path on
which the input and output handles are *not* released — the run aborts with
both still open — refuting guaranteed release on every exit path. -/
theorem batch_handles_leak_counterexample :
    runBatch demoEnvC9 false [demoJobC9] [] [] =
      BatchResult.aborted [] [inHandle demoJobC9, outHandle demoJobC9]
        demoJobC9 [] ∧
    [inHandle demoJobC9, outHandle demoJobC9] ≠ ([] : List (ℕ × ℕ)) :=
  ⟨rfl, by decide⟩

/-- The first queued job of the C8 scenario: its operation raises. -/
def demoJobA8 : Job := ⟨1, 10, 20⟩

/-- The second queued job of the C8 scenario: it would succeed. -/
def demoJobB8 : Job := ⟨2, 11, 21⟩

/-- No output exists; job 1's operation raises, every other job succeeds. -/
def demoEnvC8 : BatchEnv :=
  ⟨fun _ => false, fun j => if j.fn = 1 then JobOutcome.raiseOnRun
    else JobOutcome.success⟩

/-- C8: the driver does *not* record a job whose processing raises, and does
not continue with the remaining jobs — only `EOFError` is caught, the
catch-all handler of the source is commented out (lines 47-54), so the first
raising job aborts the whole queue: the failed-job list stays empty, the
second job is left unprocessed, and `failed_jobs.dat` is never written (the
dump after the loop is unreachable on an uncaught exception). -/
theorem batch_driver_abort_on_error :
    runBatch demoEnvC8 false [demoJobA8, demoJobB8] [] [] =
      BatchResult.aborted [] [inHandle demoJobA8, outHandle demoJobA8]
        demoJobA8 [demoJobB8] ∧
    persistedFailedJobs
      (runBatch demoEnvC8 false [demoJobA8, demoJobB8] [] []) = none :=
  ⟨rfl, rfl⟩

end Neurobehavior
